import Mathlib

/-!
Verification of the note-history and continuation-scheduling engine of a
generative piano web application (assets/js/piano.js).

The source file contains three evolving versions of the Piano class; the
current design is the version that owns a History-based timeline (the class
with seedInputAwaiter, callModel with a staleness guard, and rewind).  The
definitions below are a shallow embedding of that code:

* Wall-clock instants (JavaScript Date values) are modelled as integers
  counting milliseconds; timeline positions (Tone.Transport.seconds) and
  musical durations are modelled as rationals counting seconds.
* The JavaScript remainder operator on numbers truncates the quotient
  toward zero, so the remainder carries the sign of the dividend; jsMod
  below reproduces that.
* Asynchronous work is split into its synchronous phases: callModel is
  modelled by the state transformation performed when the awaited model
  result arrives (callModelComplete); timer callbacks (seedInputAwaiter,
  rewind) are modelled as state transformations invoked with the current
  wall-clock or transport time.
* External collaborators (audio sampler, canvases, DOM) are modelled by
  logs of the commands sent to them, or omitted when no claim observes
  them.
* The Note and History classes are referenced by this code but their
  definitions are not part of the sources at hand; they are modelled from
  the specification where needed, and marked as such.
-/

/-! ## Clock / timebase -/

/-- Truncation toward zero, as performed by the JavaScript remainder
operator when computing the implicit quotient. -/
def jsTrunc (q : ℚ) : ℤ := if 0 ≤ q then ⌊q⌋ else ⌈q⌉

/-- The JavaScript remainder operator on numbers: a % b = a - b * trunc(a / b);
the result carries the sign of the dividend. -/
def jsMod (a b : ℚ) : ℚ := a - b * (jsTrunc (a / b) : ℚ)

/-- Piano.beatsToSeconds: (beats / this.pianoAudio.bpm) * 60. -/
def beatsToSeconds (bpm beats : ℚ) : ℚ := beats / bpm * 60

/-- Piano.getInterval: the time in seconds for the smallest tick interval,
beatsToSeconds(1 / ticksPerBeat). -/
def getInterval (bpm ticksPerBeat : ℚ) : ℚ := beatsToSeconds bpm (1 / ticksPerBeat)

/-- Piano.roundToOffset: rounds up time to the nearest interval boundary
that is offset by half a timestep.  The local interval is
beatsToSeconds(1 / ticksPerBeat), i.e. getInterval. -/
def roundToOffset (bpm ticksPerBeat time : ℚ) : ℚ :=
  let interval := getInterval bpm ticksPerBeat
  let remainder := jsMod (time + interval / 2) interval
  time - remainder + interval

lemma getInterval_pos {bpm tpb : ℚ} (hb : 0 < bpm) (ht : 0 < tpb) :
    0 < getInterval bpm tpb := by
  unfold getInterval beatsToSeconds
  positivity

lemma jsMod_lt {b : ℚ} (hb : 0 < b) (a : ℚ) : jsMod a b < b := by
  unfold jsMod jsTrunc
  by_cases hq : 0 ≤ a / b
  · rw [if_pos hq]
    have h1 : a / b < (⌊a / b⌋ : ℚ) + 1 := Int.lt_floor_add_one _
    have h2 : a / b * b < ((⌊a / b⌋ : ℚ) + 1) * b := by
      exact mul_lt_mul_of_pos_right h1 hb
    rw [div_mul_cancel₀ a hb.ne'] at h2
    nlinarith
  · rw [if_neg hq]
    have h1 : a / b ≤ (⌈a / b⌉ : ℚ) := Int.le_ceil _
    have h2 : a / b * b ≤ (⌈a / b⌉ : ℚ) * b := mul_le_mul_of_nonneg_right h1 hb.le
    rw [div_mul_cancel₀ a hb.ne'] at h2
    nlinarith

lemma jsMod_nonneg {b : ℚ} (hb : 0 < b) {a : ℚ} (ha : 0 ≤ a) : 0 ≤ jsMod a b := by
  have hq : 0 ≤ a / b := div_nonneg ha hb.le
  unfold jsMod jsTrunc
  rw [if_pos hq]
  have h1 : (⌊a / b⌋ : ℚ) ≤ a / b := Int.floor_le _
  have h2 : (⌊a / b⌋ : ℚ) * b ≤ a / b * b := mul_le_mul_of_nonneg_right h1 hb.le
  rw [div_mul_cancel₀ a hb.ne'] at h2
  nlinarith

lemma roundToOffset_gt {bpm tpb : ℚ} (hb : 0 < bpm) (ht : 0 < tpb) (t : ℚ) :
    t < roundToOffset bpm tpb t := by
  have hi : 0 < getInterval bpm tpb := getInterval_pos hb ht
  have hlt := jsMod_lt hi (t + getInterval bpm tpb / 2)
  unfold roundToOffset
  dsimp only
  linarith

lemma roundToOffset_le {bpm tpb : ℚ} (hb : 0 < bpm) (ht : 0 < tpb) {t : ℚ}
    (h0 : 0 ≤ t + getInterval bpm tpb / 2) :
    roundToOffset bpm tpb t ≤ t + getInterval bpm tpb := by
  have hnn := jsMod_nonneg (getInterval_pos hb ht) h0
  unfold roundToOffset
  dsimp only
  linarith

lemma roundToOffset_offset_multiple (bpm tpb t : ℚ) :
    roundToOffset bpm tpb t - getInterval bpm tpb / 2 =
      (jsTrunc ((t + getInterval bpm tpb / 2) / getInterval bpm tpb) : ℚ) *
        getInterval bpm tpb := by
  unfold roundToOffset jsMod
  ring

/-- C2 (amended): for bpm > 0 and ticksPerBeat > 0, roundToOffset(t) is
always strictly greater than t and always lands on a point congruent to
tickInterval/2 modulo tickInterval; the upper bound
roundToOffset(t) ≤ t + tickInterval additionally holds whenever
t + tickInterval/2 ≥ 0 (it fails for more negative t because the
JavaScript remainder of a negative dividend is negative). -/
theorem roundToOffset_contract (bpm tpb t : ℚ) (hb : 0 < bpm) (ht : 0 < tpb) :
    t < roundToOffset bpm tpb t ∧
    (∃ k : ℤ, roundToOffset bpm tpb t - getInterval bpm tpb / 2 =
      (k : ℚ) * getInterval bpm tpb) ∧
    (0 ≤ t + getInterval bpm tpb / 2 →
      roundToOffset bpm tpb t ≤ t + getInterval bpm tpb) :=
  ⟨roundToOffset_gt hb ht t,
   ⟨jsTrunc ((t + getInterval bpm tpb / 2) / getInterval bpm tpb),
    roundToOffset_offset_multiple bpm tpb t⟩,
   fun h0 => roundToOffset_le hb ht h0⟩

/-- C2 witness: the amended contract instantiated at bpm = 60,
ticksPerBeat = 1, t = 0. -/
theorem roundToOffset_contract_witness :
    (0 : ℚ) < 60 ∧ (0 : ℚ) < 1 ∧
    ((0 : ℚ) < roundToOffset 60 1 0 ∧
     (∃ k : ℤ, roundToOffset 60 1 0 - getInterval 60 1 / 2 =
       (k : ℚ) * getInterval 60 1) ∧
     (0 ≤ (0 : ℚ) + getInterval 60 1 / 2 →
       roundToOffset 60 1 0 ≤ 0 + getInterval 60 1)) :=
  ⟨by norm_num, by norm_num, roundToOffset_contract 60 1 0 (by norm_num) (by norm_num)⟩

/-- C2 counterexample: at bpm = 60 and ticksPerBeat = 1 the tick interval
is exactly 1 second, yet roundToOffset(-1) = 1/2 > -1 + 1, so the claimed
bound roundToOffset(t) ≤ t + tickInterval fails at t = -1. -/
theorem roundToOffset_claim_counterexample :
    ¬ (roundToOffset 60 1 (-1) ≤ (-1) + getInterval 60 1) := by
  have hceil : ⌈(-1 : ℚ) / 2⌉ = 0 := by
    rw [Int.ceil_eq_iff]
    constructor <;> norm_num
  have hint : getInterval 60 1 = 1 := by
    norm_num [getInterval, beatsToSeconds]
  have hval : roundToOffset 60 1 (-1) = 1 / 2 := by
    rw [roundToOffset]
    rw [hint]
    have harg : (-1 : ℚ) + 1 / 2 = -1 / 2 := by norm_num
    rw [harg]
    rw [jsMod, jsTrunc]
    rw [if_neg (by norm_num)]
    rw [div_one, hceil]
    norm_num
  rw [hval, hint]
  norm_num

/-! ## Data model -/

/-- The actors that can play a note. -/
inductive Actor where
  | Player
  | Model
  | Bot
deriving DecidableEq, Repr

/-- A Note as constructed by new Note(key, velocity, duration, time,
actor, scheduleId, isRewind).  The PianoKey object is identified by its
keyNum (pianoKeys[keyNum] is the unique key object with that number); the
opaque Tone schedule handle is not modelled. -/
structure Note where
  keyNum : ℕ
  velocity : ℚ
  duration : ℚ
  time : ℚ
  actor : Actor
  isRewind : Bool := false
deriving DecidableEq, Repr

/-- A note record as returned by the generative-model collaborator. -/
structure GenNote where
  keyNum : ℕ
  velocity : ℚ
  duration : ℚ
  time : ℚ
deriving DecidableEq, Repr

/-- Modelled from the spec: the History class is referenced by this code
(History.add, History.getRecentHistory, History.removeHistory, copy) but
its definition is not among the sources at hand.  Fields follow the data
model in the spec; the parent link is not observed by any claim and is
omitted. -/
structure History where
  noteHistory : List Note
  bpm : ℚ
  name : String
  lastSeedNoteTime : ℚ
  isNew : Bool
deriving DecidableEq, Repr

/-- Modelled from the spec: History.add appends a note, preserving the
non-decreasing time order by inserting in place when time is not
monotone. -/
def historyAdd (n : Note) : List Note → List Note
  | [] => [n]
  | m :: rest => if n.time < m.time then n :: m :: rest else m :: historyAdd n rest

/-- Modelled from the spec: History.getRecentHistory returns the maximal
suffix of notes with time ≥ start, scanning from the end and stopping at
the first earlier note, in the original order. -/
def getRecentHistory (notes : List Note) (start : ℚ) : List Note :=
  (notes.reverse.takeWhile fun n => decide (start ≤ n.time)).reverse

/-- Modelled from the spec: History.removeHistory returns the prefix of
notes with time < cutoff. -/
def removeHistory (notes : List Note) (cutoff : ℚ) : List Note :=
  notes.takeWhile fun n => decide (n.time < cutoff)

/-- Modelled from the spec: History.copy produces a new History with the
same notes, bpm and name; the copy is a fresh, un-archived History. -/
def historyCopy (h : History) : History := { h with isNew := true }

/-- The ordering invariant of a History: notes are in non-decreasing time
order. -/
def SortedByTime (l : List Note) : Prop :=
  l.Sorted fun a b => a.time ≤ b.time

/-! ## List lemmas about the History queries -/

lemma takeWhile_eq_filter_of_sorted {r : Note → Note → Prop} {p : Note → Bool}
    (hcl : ∀ a b, r a b → p b = true → p a = true) :
    ∀ {l : List Note}, l.Sorted r → l.takeWhile p = l.filter p := by
  intro l hl
  induction l with
  | nil => rfl
  | cons a l ih =>
    rw [List.sorted_cons] at hl
    by_cases hpa : p a = true
    · rw [List.takeWhile_cons_of_pos hpa, List.filter_cons_of_pos hpa, ih hl.2]
    · have hnone : ∀ b ∈ l, ¬ (p b = true) :=
        fun b hb hpb => hpa (hcl a b (hl.1 b hb) hpb)
      rw [List.takeWhile_cons_of_neg (by simpa using hpa),
        List.filter_cons_of_neg (by simpa using hpa)]
      exact (List.filter_eq_nil_iff.mpr hnone).symm

lemma dropWhile_eq_filter_not_of_sorted {r : Note → Note → Prop} {p : Note → Bool}
    (hcl : ∀ a b, r a b → p b = true → p a = true) :
    ∀ {l : List Note}, l.Sorted r → l.dropWhile p = l.filter (fun a => ! p a) := by
  intro l hl
  induction l with
  | nil => rfl
  | cons a l ih =>
    rw [List.sorted_cons] at hl
    by_cases hpa : p a = true
    · rw [List.dropWhile_cons_of_pos hpa, List.filter_cons_of_neg (by simp [hpa]), ih hl.2]
    · have hall : ∀ b ∈ l, (! p b) = true := by
        intro b hb
        cases hpb : p b with
        | false => rfl
        | true => exact absurd (hcl a b (hl.1 b hb) hpb) hpa
      rw [List.dropWhile_cons_of_neg (by simpa using hpa),
        List.filter_cons_of_pos (by simp [hpa]), List.filter_eq_self.mpr hall]

lemma removeHistory_eq_filter {l : List Note} {c : ℚ} (h : SortedByTime l) :
    removeHistory l c = l.filter fun n => decide (n.time < c) :=
  takeWhile_eq_filter_of_sorted (r := fun a b => a.time ≤ b.time)
    (fun a b hr hb => by
      simp only [decide_eq_true_eq] at hb ⊢
      linarith) h

lemma getRecentHistory_eq_filter {l : List Note} {s : ℚ} (h : SortedByTime l) :
    getRecentHistory l s = l.filter fun n => decide (s ≤ n.time) := by
  unfold getRecentHistory
  have hrev : l.reverse.Sorted fun a b : Note => b.time ≤ a.time :=
    List.pairwise_reverse.mpr h
  rw [takeWhile_eq_filter_of_sorted (r := fun a b : Note => b.time ≤ a.time)
      (fun a b hr hb => by
        simp only [decide_eq_true_eq] at hb ⊢
        linarith) hrev]
  rw [List.filter_reverse, List.reverse_reverse]

lemma removeHistory_append_getRecentHistory {l : List Note} (c : ℚ)
    (h : SortedByTime l) :
    removeHistory l c ++ getRecentHistory l c = l := by
  rw [getRecentHistory_eq_filter h]
  have hfix : l.filter (fun n => decide (c ≤ n.time)) =
      l.dropWhile (fun n => decide (n.time < c)) := by
    rw [dropWhile_eq_filter_not_of_sorted (r := fun a b => a.time ≤ b.time)
        (fun a b hr hb => by
          simp only [decide_eq_true_eq] at hb ⊢
          linarith) h]
    apply List.filter_congr
    intro x hx
    rw [← decide_not]
    exact decide_eq_decide.mpr not_lt.symm
  rw [hfix, removeHistory, List.takeWhile_append_dropWhile]

/-! ## historyAdd and the rewind commit loop -/

lemma mem_of_mem_historyAdd {b n : Note} : ∀ {l : List Note},
    b ∈ historyAdd n l → b = n ∨ b ∈ l := by
  intro l
  induction l with
  | nil =>
    intro hb
    simp only [historyAdd, List.mem_singleton] at hb
    exact Or.inl hb
  | cons m rest ih =>
    intro hb
    rw [historyAdd] at hb
    by_cases hlt : n.time < m.time
    · rw [if_pos hlt] at hb
      rcases List.mem_cons.mp hb with rfl | hb
      · exact Or.inl rfl
      · exact Or.inr hb
    · rw [if_neg hlt] at hb
      rcases List.mem_cons.mp hb with rfl | hb
      · exact Or.inr (List.mem_cons_self _ _)
      · rcases ih hb with rfl | hb
        · exact Or.inl rfl
        · exact Or.inr (List.mem_cons_of_mem _ hb)

lemma mem_historyAdd (n : Note) : ∀ l : List Note, n ∈ historyAdd n l := by
  intro l
  induction l with
  | nil => simp [historyAdd]
  | cons m rest ih =>
    rw [historyAdd]
    by_cases hlt : n.time < m.time
    · rw [if_pos hlt]; exact List.mem_cons_self _ _
    · rw [if_neg hlt]; exact List.mem_cons_of_mem _ ih

lemma mem_historyAdd_of_mem {m : Note} (n : Note) : ∀ {l : List Note},
    m ∈ l → m ∈ historyAdd n l := by
  intro l
  induction l with
  | nil => intro h; cases h
  | cons a rest ih =>
    intro hm
    rw [historyAdd]
    by_cases hlt : n.time < a.time
    · rw [if_pos hlt]; exact List.mem_cons_of_mem _ hm
    · rw [if_neg hlt]
      rcases List.mem_cons.mp hm with rfl | hm
      · exact List.mem_cons_self _ _
      · exact List.mem_cons_of_mem _ (ih hm)

lemma sorted_historyAdd (n : Note) : ∀ {l : List Note},
    SortedByTime l → SortedByTime (historyAdd n l) := by
  intro l
  induction l with
  | nil => intro _; simp [historyAdd, SortedByTime]
  | cons m rest ih =>
    intro h
    rw [SortedByTime, List.sorted_cons] at h
    rw [historyAdd]
    by_cases hlt : n.time < m.time
    · rw [if_pos hlt]
      rw [SortedByTime, List.sorted_cons]
      refine ⟨?_, ?_⟩
      · intro b hb
        rcases List.mem_cons.mp hb with rfl | hb
        · exact hlt.le
        · exact hlt.le.trans (h.1 b hb)
      · rw [List.sorted_cons]
        exact h
    · rw [if_neg hlt]
      rw [SortedByTime, List.sorted_cons]
      refine ⟨?_, ih h.2⟩
      intro b hb
      rcases mem_of_mem_historyAdd hb with rfl | hb
      · exact le_of_not_lt hlt
      · exact h.1 b hb

/-- The loop in rewind that commits queued notes with time ≤ callModelEnd
into the (new) current History. -/
def commitQueued (queued : List Note) (callModelEnd : ℚ) (notes : List Note) :
    List Note :=
  queued.foldl (fun acc n => if n.time ≤ callModelEnd then historyAdd n acc else acc)
    notes

lemma sorted_commitQueued (q : List Note) (c : ℚ) : ∀ {notes : List Note},
    SortedByTime notes → SortedByTime (commitQueued q c notes) := by
  induction q with
  | nil => intro notes h; exact h
  | cons n rest ih =>
    intro notes h
    rw [commitQueued, List.foldl_cons]
    by_cases hc : n.time ≤ c
    · rw [if_pos hc]
      exact ih (sorted_historyAdd n h)
    · rw [if_neg hc]
      exact ih h

lemma mem_commitQueued_of_mem {m : Note} (q : List Note) (c : ℚ) :
    ∀ {notes : List Note}, m ∈ notes → m ∈ commitQueued q c notes := by
  induction q with
  | nil => intro notes h; exact h
  | cons n rest ih =>
    intro notes hm
    rw [commitQueued, List.foldl_cons]
    by_cases hc : n.time ≤ c
    · rw [if_pos hc]
      exact ih (mem_historyAdd_of_mem n hm)
    · rw [if_neg hc]
      exact ih hm

lemma mem_commitQueued_of_queued {n : Note} {q : List Note} (hn : n ∈ q) {c : ℚ}
    (hc : n.time ≤ c) (notes : List Note) : n ∈ commitQueued q c notes := by
  induction q generalizing notes with
  | nil => cases hn
  | cons a rest ih =>
    rw [commitQueued, List.foldl_cons]
    rcases List.mem_cons.mp hn with rfl | hn
    · rw [if_pos hc]
      exact mem_commitQueued_of_mem rest c (mem_historyAdd n _)
    · by_cases hac : a.time ≤ c
      · rw [if_pos hac]
        exact ih hn _
      · rw [if_neg hac]
        exact ih hn _

/-! ## Engine state -/

/-- The constructor constant this.bufferBeats = 6. -/
def bufferBeats : ℚ := 6

/-- The number of milliseconds seedInputAwaiter waits for the end of
player input before starting the model. -/
def inputWaitTime : ℤ := 1500

/-- releaseNote skips the explicit release command when the recorded and
final durations differ by no more than this tolerance in seconds. -/
def releaseEpsilon : ℚ := 1 / 1000

/-- The mutable fields of the Piano engine that the claims observe.
Wall-clock Dates are integers in milliseconds, transport positions are
rationals in seconds.  audioReleases logs the sampler.triggerRelease
commands (keyNum); audioAttacks logs the sampler.triggerAttack and
triggerAttackRelease commands (keyNum, velocity).
callModelIntervalActive records whether the periodic callModel interval
of startModel is running. -/
structure PianoState where
  bpm : ℚ
  ticksPerBeat : ℚ
  lastActivity : ℤ
  modelStartTime : Option ℤ
  currHistory : History
  allHistories : List History
  activeNotes : List Note
  noteQueue : List Note
  noteBuffer : List Note
  callModelEnd : ℚ
  transportSeconds : ℚ
  toneStarted : Bool
  awaitingInput : Bool
  callModelIntervalActive : Bool
  audioReleases : List ℕ
  audioAttacks : List (ℕ × ℚ)
deriving DecidableEq, Repr

/-- Piano.scheduleNote: registers the note with the transport (the opaque
schedule handle is not modelled) and pushes it onto noteQueue. -/
def scheduleNote (note : Note) (s : PianoState) : PianoState :=
  { s with noteQueue := s.noteQueue ++ [note] }

/-- Piano.stopModel: clears every queued Tone event, empties noteQueue
and noteBuffer, nulls modelStartTime and stops the callModel and
checkActivity intervals. -/
def stopModel (s : PianoState) : PianoState :=
  { s with noteQueue := [], noteBuffer := [], modelStartTime := none,
           callModelIntervalActive := false }

/-- The synchronous state change of Piano.startModel at wall-clock now:
records modelStartTime = new Date() and starts the periodic callModel
interval.  The immediate this.callModel() issues an asynchronous request
whose arrival is modelled separately by callModelComplete. -/
def startModelMark (now : ℤ) (s : PianoState) : PianoState :=
  { s with modelStartTime := some now, callModelIntervalActive := true }

/-- The staleness guard of Piano.callModel: results are applied only when
this.modelStartTime is not null and initiatedTime >= this.modelStartTime. -/
def modelStillCurrent (initiatedTime : ℤ) (modelStartTime : Option ℤ) : Bool :=
  match modelStartTime with
  | none => false
  | some t => initiatedTime ≥ t

/-- The state change performed by Piano.callModel when the awaited
generateNotes result arrives; initiatedTime is the new Date() recorded
when the call was issued.  When the guard passes, each generated note is
scheduled (or buffered when scheduleImmediately is false) and
callModelEnd advances by beatsToSeconds(bufferBeats); otherwise the
result is dropped silently and the state is untouched. -/
def callModelComplete (initiatedTime : ℤ) (generated : List GenNote)
    (scheduleImmediately : Bool) (s : PianoState) : PianoState :=
  if modelStillCurrent initiatedTime s.modelStartTime then
    let s1 := generated.foldl
      (fun acc g =>
        let note : Note :=
          { keyNum := g.keyNum, velocity := g.velocity, duration := g.duration,
            time := g.time, actor := Actor.Model }
        if scheduleImmediately then scheduleNote note acc
        else { acc with noteBuffer := acc.noteBuffer ++ [note] })
      s
    { s1 with callModelEnd := s1.callModelEnd + beatsToSeconds s1.bpm bufferBeats }
  else s

/-- The in-place duration overwrite of releaseNote: the active Note is
aliased by the current History, so overwriting its duration rewrites the
corresponding History entry. -/
def updateNoteDuration (l : List Note) (an : Note) (d : ℚ) : List Note :=
  match l with
  | [] => []
  | m :: rest =>
    if m = an then { an with duration := d } :: rest
    else m :: updateNoteDuration rest an d

/-- Piano.releaseNote(pianoKey, triggerTime): when a note for the key is
active, remove it from activeNotes; when its recorded duration differs
from the final duration by more than 0.001s, send an explicit
sampler.triggerRelease and overwrite the shared duration, which also
updates the aliased History entry.  Absent keys are a no-op. -/
def releaseNote (keyNum : ℕ) (triggerTime : ℚ) (s : PianoState) : PianoState :=
  match s.activeNotes.find? (fun n => n.keyNum == keyNum) with
  | none => s
  | some activeNote =>
    let remaining := s.activeNotes.eraseP (fun n => n == activeNote)
    let finalDuration := triggerTime - activeNote.time
    if releaseEpsilon < |activeNote.duration - finalDuration| then
      { s with activeNotes := remaining,
               audioReleases := s.audioReleases ++ [keyNum],
               currHistory := { s.currHistory with
                 noteHistory := updateNoteDuration s.currHistory.noteHistory
                   activeNote finalDuration } }
    else
      { s with activeNotes := remaining }

/-- Piano.playNote: first releases any active note for the same key, sends
an attack (held note, duration -1) or attack-release command, records the
note in activeNotes and in the current History, and removes it from
noteQueue when it was scheduled there. -/
def playNote (note : Note) (s : PianoState) : PianoState :=
  let s1 := releaseNote note.keyNum note.time s
  let s2 := { s1 with
    audioAttacks := s1.audioAttacks ++ [(note.keyNum, note.velocity)],
    activeNotes := s1.activeNotes ++ [note],
    currHistory := { s1.currHistory with
      noteHistory := historyAdd note s1.currHistory.noteHistory } }
  { s2 with noteQueue := s2.noteQueue.eraseP (fun m => m == note) }

/-- The noteHistory.at(-1).time read in seedInputAwaiter; the source
assumes the seed history is nonempty at that point. -/
def getLastTime (l : List Note) : ℚ :=
  match l.getLast? with
  | some n => n.time
  | none => 0

/-- Piano.seedInputAwaiter, the 50ms poll driving the seed-input state
machine, invoked at wall-clock currTime; detectBpm stands for the
external PianoAudio.detectBpm collaborator.  With the model not yet
started, sustained inactivity freezes the tempo and seed boundary and
issues the first buffered model call; with the model started, renewed
activity aborts the cycle via stopModel, and sustained inactivity of
3 x inputWaitTime rewinds the transport to callModelEnd minus one buffer,
flushes the note buffer into the schedule and starts the periodic model. -/
def seedInputAwaiter (detectBpm : List Note → ℚ) (currTime : ℤ)
    (s : PianoState) : PianoState :=
  match s.modelStartTime with
  | none =>
    if inputWaitTime ≤ currTime - s.lastActivity ∧ s.activeNotes = [] then
      let newBpm := detectBpm s.currHistory.noteHistory
      let lastSeed := getLastTime s.currHistory.noteHistory
      { s with
        bpm := newBpm
        currHistory := { s.currHistory with
          bpm := newBpm
          lastSeedNoteTime := lastSeed }
        callModelEnd := roundToOffset newBpm s.ticksPerBeat lastSeed
        modelStartTime := some currTime }
    else s
  | some _ =>
    if currTime - s.lastActivity < inputWaitTime then
      stopModel s
    else if inputWaitTime * 3 ≤ currTime - s.lastActivity then
      let s1 := { s with
        transportSeconds := s.callModelEnd - beatsToSeconds s.bpm bufferBeats }
      let s2 := s1.noteBuffer.foldl (fun acc note => scheduleNote note acc) s1
      startModelMark currTime { s2 with noteBuffer := [] }
    else s

/-! ## Rewind -/

/-- The local constant secondsToRewind = 8 of Piano.rewind. -/
def secondsToRewind : ℚ := 8

/-- The local constant secondsToReplay = 3 of Piano.rewind: the ideal
number of seconds of history to replay, which also acts as the buffer. -/
def secondsToReplay : ℚ := 3

/-- replaySeconds of Piano.rewind: the ideal secondsToReplay rounded up to
a whole number of timesteps at the current tempo
(replayTimesteps = ceil(ticksPerBeat * secondsToReplay * bpm / 60)),
converted back to seconds. -/
def replaySecondsOf (bpm ticksPerBeat : ℚ) : ℚ :=
  beatsToSeconds bpm
    ((⌈ticksPerBeat * secondsToReplay * bpm / 60⌉ : ℤ) / ticksPerBeat)

/-- The rewind target of Piano.rewind:
roundToOffset(max(now - secondsToRewind, lastSeedNoteTime - replaySeconds)). -/
def rewindTargetOf (bpm ticksPerBeat now lastSeedNoteTime : ℚ) : ℚ :=
  roundToOffset bpm ticksPerBeat
    (max (now - secondsToRewind) (lastSeedNoteTime - replaySecondsOf bpm ticksPerBeat))

/-- Piano.rewind invoked with the transport at now.  Steps, as in the
source: guard on toneStarted and awaitingInput; snapshot the queued
notes; archive the current History when it is still new; stopModel;
clear activeNotes; branch the History with copy; rewind the transport to
the clamped, rounded target and set callModelEnd one replay buffer later;
commit snapshotted queued notes with time ≤ callModelEnd into the new
History; extract the replay window and truncate the History to
time < newTransportSeconds; re-schedule each replay note marked isRewind.
The debounced startModel runs only after an 800ms timeout and is not part
of this synchronous step. -/
def rewind (now : ℚ) (s : PianoState) : PianoState :=
  if !s.toneStarted || s.awaitingInput then s
  else
    let queuedNotes := s.noteQueue
    let archived :=
      if s.currHistory.isNew then s.allHistories ++ [s.currHistory]
      else s.allHistories
    let s1 := stopModel s
    let hist := historyCopy s.currHistory
    let newTransportSeconds :=
      rewindTargetOf s.bpm s.ticksPerBeat now hist.lastSeedNoteTime
    let callModelEnd := newTransportSeconds + replaySecondsOf s.bpm s.ticksPerBeat
    let committed := commitQueued queuedNotes callModelEnd hist.noteHistory
    let replayNotes :=
      removeHistory (getRecentHistory committed newTransportSeconds) callModelEnd
    let truncated := removeHistory committed newTransportSeconds
    let rewindNotes := replayNotes.map fun n => { n with isRewind := true }
    { s1 with
      allHistories := archived
      activeNotes := []
      currHistory := { hist with noteHistory := truncated }
      transportSeconds := newTransportSeconds
      callModelEnd := callModelEnd
      noteQueue := rewindNotes }

/-! ## Constructor guard -/

/-- The Piano constructor: new Piano(canvasId, octaves, ticksPerBeat,
model) throws a RangeError when octaves < 1 or octaves > 7, and otherwise
constructs the engine. -/
def pianoConstructor (octaves : ℚ) : Except String ℚ :=
  if octaves < 1 || octaves > 7 then
    Except.error "RangeError: The number of octaves must be between 1 and 7"
  else
    Except.ok octaves

/-! ## PianoKey numbering (first version of the source) -/

/-- PianoKey.whiteKeyNumbers: key numbers of the white keys relative to an
octave. -/
def whiteKeyNumbers : List ℕ := [1, 3, 5, 6, 8, 10, 12]

/-- PianoKey.blackKeyNumbers: key numbers of the black keys relative to an
octave. -/
def blackKeyNumbers : List ℕ := [2, 4, 7, 9, 11]

/-- PianoKey.calcOctave: Math.floor((keyNum + 9) / 12). -/
def calcOctave (keyNum : ℕ) : ℕ := (keyNum + 9) / 12

/-- PianoKey.calcOctaveKeyNum: ((keyNum + 9) % 12) + 1. -/
def calcOctaveKeyNum (keyNum : ℕ) : ℕ := (keyNum + 9) % 12 + 1

/-- PianoKey.calcIsWhiteKey: whiteKeyNumbers.includes(octaveKeyNum). -/
def calcIsWhiteKey (keyNum : ℕ) : Bool :=
  whiteKeyNumbers.contains (calcOctaveKeyNum keyNum)

/-- PianoKey.calcColourKeyNum: the 0-indexed key number relative to its
colour (indexOf into the per-octave table plus a whole-octave offset). -/
def calcColourKeyNum (keyNum : ℕ) : ℤ :=
  if calcIsWhiteKey keyNum then
    (whiteKeyNumbers.indexOf (calcOctaveKeyNum keyNum) : ℤ)
      + (calcOctave keyNum : ℤ) * 7 - 5
  else
    (blackKeyNumbers.indexOf (calcOctaveKeyNum keyNum) : ℤ)
      + (calcOctave keyNum : ℤ) * 5 - 4

/-- PianoKey.calcKeyNumFromColourKeyNum.  Math.floor of the division is
Int.fdiv; the JavaScript remainder used as the table index agrees with
Int.fmod for the non-negative colour key numbers the keyboard produces. -/
def calcKeyNumFromColourKeyNum (colourKeyNum : ℤ) (isWhiteKey : Bool) : ℤ :=
  if isWhiteKey then
    let octave := (colourKeyNum + 5).fdiv 7
    let octaveColourKeyNum := (colourKeyNum + 5).fmod 7
    octave * 12 - 10 + (whiteKeyNumbers.getD octaveColourKeyNum.toNat 0 : ℤ)
  else
    let octave := (colourKeyNum + 4).fdiv 5
    let octaveColourKeyNum := (colourKeyNum + 4).fmod 5
    octave * 12 - 10 + (blackKeyNumbers.getD octaveColourKeyNum.toNat 0 : ℤ)

/-- The round trip of C10: absolute key number to (colour, colour-relative
index) and back. -/
def keyNumRoundTrip (keyNum : ℕ) : ℤ :=
  calcKeyNumFromColourKeyNum (calcColourKeyNum keyNum) (calcIsWhiteKey keyNum)

/-! ## C1: stale model results are dropped -/

/-- C1: staleness guard.  callModel records its initiation time; if the
engine is reset or rewound before the asynchronous result arrives
(stopModel nulls modelStartTime, and any restart records a strictly later
modelStartTime), then the arriving result changes nothing: no generated
note is scheduled or buffered, callModelEnd does not advance, and the
current History is untouched.  The drop is silent: callModelComplete is
total and returns the state unchanged rather than an error. -/
theorem stale_model_result_dropped (initiatedTime : ℤ) (generated : List GenNote)
    (scheduleImmediately : Bool) (s : PianoState) :
    callModelComplete initiatedTime generated scheduleImmediately (stopModel s) =
      stopModel s ∧
    (∀ restartTime : ℤ, initiatedTime < restartTime →
      callModelComplete initiatedTime generated scheduleImmediately
        (startModelMark restartTime s) = startModelMark restartTime s) := by
  constructor
  · rw [callModelComplete]
    have hguard :
        modelStillCurrent initiatedTime (stopModel s).modelStartTime = false := rfl
    rw [hguard, if_neg Bool.false_ne_true]
  · intro restartTime hlt
    rw [callModelComplete]
    have hguard : modelStillCurrent initiatedTime
        (startModelMark restartTime s).modelStartTime = false := by
      show decide (initiatedTime ≥ restartTime) = false
      exact decide_eq_false (not_le.mpr hlt)
    rw [hguard, if_neg Bool.false_ne_true]

/-! ## C9: constructor octave guard -/

/-- C9: the Piano constructor throws a RangeError if and only if the
octaves argument is below 1 or above 7; for octaves in [1, 7] it returns
the constructed engine, so no instance exists in the invalid state. -/
theorem pianoConstructor_range (octaves : ℚ) :
    (∃ e, pianoConstructor octaves = Except.error e) ↔
      (octaves < 1 ∨ 7 < octaves) := by
  unfold pianoConstructor
  by_cases h : octaves < 1 ∨ 7 < octaves
  · have hb : (decide (octaves < 1) || decide (octaves > 7)) = true := by
      rcases h with h | h
      · simp [h]
      · simp [h]
    rw [if_pos hb]
    exact iff_of_true ⟨_, rfl⟩ h
  · have hb : (decide (octaves < 1) || decide (octaves > 7)) = false := by
      push_neg at h
      simp [not_lt.mpr h.1, not_lt.mpr h.2]
    rw [if_neg (by simp [hb])]
    refine iff_of_false ?_ h
    rintro ⟨e, he⟩
    cases he

/-! ## C8: active-note set invariant -/

/-- The invariant of the active-note set: at most one entry per key. -/
def KeyUnique (l : List Note) : Prop :=
  l.Pairwise fun a b => a.keyNum ≠ b.keyNum

lemma releaseNote_activeNotes (k : ℕ) (t : ℚ) (s : PianoState) :
    (releaseNote k t s).activeNotes =
      match s.activeNotes.find? (fun n => n.keyNum == k) with
      | none => s.activeNotes
      | some an => s.activeNotes.eraseP (fun n => n == an) := by
  unfold releaseNote
  cases hf : s.activeNotes.find? (fun n => n.keyNum == k) with
  | none => rfl
  | some an =>
    dsimp only
    split
    · rfl
    · rfl

lemma playNote_activeNotes (note : Note) (s : PianoState) :
    (playNote note s).activeNotes =
      (releaseNote note.keyNum note.time s).activeNotes ++ [note] := rfl

lemma eraseP_no_key {k : ℕ} : ∀ {l : List Note}, KeyUnique l →
    ∀ {an : Note}, l.find? (fun n => n.keyNum == k) = some an →
    ∀ m ∈ l.eraseP (fun n => n == an), m.keyNum ≠ k := by
  intro l
  induction l with
  | nil =>
    intro _ an hf
    cases hf
  | cons a rest ih =>
    intro hu an hf m hm hmk
    rw [KeyUnique, List.pairwise_cons] at hu
    by_cases ha : (a.keyNum == k) = true
    · rw [List.find?_cons_of_pos (p := fun n : Note => n.keyNum == k) _ ha] at hf
      injection hf with hfa
      subst hfa
      rw [List.eraseP_cons_of_pos (p := fun n : Note => n == a) (by simp)] at hm
      have hak : a.keyNum = k := by simpa using ha
      exact hu.1 m hm (hak.trans hmk.symm)
    · rw [List.find?_cons_of_neg (p := fun n : Note => n.keyNum == k) _ ha] at hf
      have hank : (an.keyNum == k) = true :=
        List.find?_some (p := fun n : Note => n.keyNum == k) hf
      have hane : ¬ ((a == an) = true) := by
        intro hcontra
        have haan : a = an := by simpa using hcontra
        subst haan
        exact ha hank
      rw [List.eraseP_cons_of_neg (p := fun n : Note => n == an) hane] at hm
      rcases List.mem_cons.mp hm with rfl | hm
      · exact ha (by simp [hmk])
      · exact ih hu.2 hf m hm hmk

lemma releaseNote_no_key (k : ℕ) (t : ℚ) (s : PianoState)
    (h : KeyUnique s.activeNotes) :
    ∀ m ∈ (releaseNote k t s).activeNotes, m.keyNum ≠ k := by
  rw [releaseNote_activeNotes]
  cases hf : s.activeNotes.find? (fun n => n.keyNum == k) with
  | none =>
    intro m hm hmk
    exact (List.find?_eq_none.mp hf) m hm (by simp [hmk])
  | some an =>
    exact eraseP_no_key h hf

lemma releaseNote_keyUnique (k : ℕ) (t : ℚ) (s : PianoState)
    (h : KeyUnique s.activeNotes) :
    KeyUnique (releaseNote k t s).activeNotes := by
  rw [releaseNote_activeNotes]
  cases s.activeNotes.find? (fun n => n.keyNum == k) with
  | none => exact h
  | some an => exact List.Pairwise.sublist (List.eraseP_sublist _) h

/-- C8: the active-note set holds at most one entry per key, and the
operations preserve that.  playNote first force-releases any active note
for the same key, so afterwards the only entry for that key is the new
note; releaseNote removes the entry for its key; and releaseNote on a key
with no active entry leaves the whole state untouched rather than
failing. -/
theorem activeNotes_key_invariant (note : Note) (k : ℕ) (t : ℚ) (s : PianoState)
    (h : KeyUnique s.activeNotes) :
    KeyUnique (playNote note s).activeNotes ∧
    (∀ m ∈ (playNote note s).activeNotes, m.keyNum = note.keyNum → m = note) ∧
    KeyUnique (releaseNote k t s).activeNotes ∧
    (∀ m ∈ (releaseNote k t s).activeNotes, m.keyNum ≠ k) ∧
    (s.activeNotes.find? (fun n => n.keyNum == k) = none → releaseNote k t s = s) := by
  have hrel := releaseNote_keyUnique note.keyNum note.time s h
  have hnok := releaseNote_no_key note.keyNum note.time s h
  refine ⟨?_, ?_, releaseNote_keyUnique k t s h, releaseNote_no_key k t s h, ?_⟩
  · rw [playNote_activeNotes, KeyUnique, List.pairwise_append]
    refine ⟨hrel, List.pairwise_singleton _ _, ?_⟩
    intro a ha b hb
    rw [List.mem_singleton] at hb
    subst hb
    exact hnok a ha
  · intro m hm hkey
    rw [playNote_activeNotes] at hm
    rcases List.mem_append.mp hm with hm | hm
    · exact absurd hkey (hnok m hm)
    · exact List.mem_singleton.mp hm
  · intro hf
    unfold releaseNote
    rw [hf]

/-! ## C7: releaseNote epsilon rule -/

lemma mem_updateNoteDuration {an : Note} (d : ℚ) : ∀ {l : List Note}, an ∈ l →
    { an with duration := d } ∈ updateNoteDuration l an d := by
  intro l
  induction l with
  | nil =>
    intro h
    cases h
  | cons m rest ih =>
    intro hm
    rw [updateNoteDuration]
    by_cases he : m = an
    · rw [if_pos he]
      exact List.mem_cons_self _ _
    · rw [if_neg he]
      rcases List.mem_cons.mp hm with rfl | hm
      · exact absurd rfl he
      · exact List.mem_cons_of_mem _ (ih hm)

/-- C7: the releaseNote epsilon rule.  When the active note found for the
key would have ended naturally within 1ms of the release instant, no
explicit sampler release command is issued and its recorded duration is
left as it was, but the note is still removed from the active set; when
the difference exceeds 1ms, an explicit release command is issued and the
duration is overwritten in place with finalDuration, which rewrites the
aliased entry of the current History. -/
theorem releaseNote_epsilon_rule (k : ℕ) (t : ℚ) (s : PianoState) (an : Note)
    (hfind : s.activeNotes.find? (fun n => n.keyNum == k) = some an) :
    (|an.duration - (t - an.time)| ≤ releaseEpsilon →
      releaseNote k t s =
        { s with activeNotes := s.activeNotes.eraseP (fun n => n == an) }) ∧
    (releaseEpsilon < |an.duration - (t - an.time)| →
      releaseNote k t s =
        { s with
          activeNotes := s.activeNotes.eraseP (fun n => n == an)
          audioReleases := s.audioReleases ++ [k]
          currHistory := { s.currHistory with
            noteHistory := updateNoteDuration s.currHistory.noteHistory an
              (t - an.time) } }) ∧
    (an ∈ s.currHistory.noteHistory →
      releaseEpsilon < |an.duration - (t - an.time)| →
      { an with duration := t - an.time } ∈
        (releaseNote k t s).currHistory.noteHistory) := by
  have hshape : releaseNote k t s =
      if releaseEpsilon < |an.duration - (t - an.time)| then
        { s with
          activeNotes := s.activeNotes.eraseP (fun n => n == an)
          audioReleases := s.audioReleases ++ [k]
          currHistory := { s.currHistory with
            noteHistory := updateNoteDuration s.currHistory.noteHistory an
              (t - an.time) } }
      else { s with activeNotes := s.activeNotes.eraseP (fun n => n == an) } := by
    unfold releaseNote
    rw [hfind]
  refine ⟨?_, ?_, ?_⟩
  · intro hle
    rw [hshape, if_neg (not_lt.mpr hle)]
  · intro hgt
    rw [hshape, if_pos hgt]
  · intro hmem hgt
    rw [hshape, if_pos hgt]
    exact mem_updateNoteDuration (t - an.time) hmem

/-! ## C5: seed confirm and abort transitions -/

lemma foldl_scheduleNote (buf : List Note) : ∀ s : PianoState,
    buf.foldl (fun acc note => scheduleNote note acc) s =
      { s with noteQueue := s.noteQueue ++ buf } := by
  induction buf with
  | nil =>
    intro s
    rw [List.foldl_nil, List.append_nil]
  | cons n rest ih =>
    intro s
    rw [List.foldl_cons, ih]
    rw [scheduleNote]
    dsimp only
    rw [List.append_assoc, List.singleton_append]

/-- C5: the MODEL_PENDING transitions of seedInputAwaiter.  With
modelStartTime set, if activity recurred within inputWaitTime the
in-flight cycle is discarded via stopModel, which empties both the queue
and the buffer and nulls modelStartTime; if instead no activity occurred
for at least 3 x inputWaitTime (4500ms), the transport is set to
callModelEnd - beatsToSeconds(bufferBeats), every buffered note is
scheduled onto the timeline (appended to the queue in order), the buffer
is emptied, and startModel begins the periodic Continuation Scheduler at
the current wall-clock time. -/
theorem seedInputAwaiter_pending_transitions (detectBpm : List Note → ℚ)
    (currTime t0 : ℤ) (s : PianoState) (hpending : s.modelStartTime = some t0) :
    (currTime - s.lastActivity < inputWaitTime →
      seedInputAwaiter detectBpm currTime s = stopModel s ∧
      (stopModel s).noteBuffer = [] ∧ (stopModel s).noteQueue = [] ∧
      (stopModel s).modelStartTime = none) ∧
    (inputWaitTime * 3 ≤ currTime - s.lastActivity →
      (seedInputAwaiter detectBpm currTime s).transportSeconds =
        s.callModelEnd - beatsToSeconds s.bpm bufferBeats ∧
      (seedInputAwaiter detectBpm currTime s).noteQueue =
        s.noteQueue ++ s.noteBuffer ∧
      (seedInputAwaiter detectBpm currTime s).noteBuffer = [] ∧
      (seedInputAwaiter detectBpm currTime s).modelStartTime = some currTime ∧
      (seedInputAwaiter detectBpm currTime s).callModelIntervalActive = true) := by
  constructor
  · intro habort
    have hshape : seedInputAwaiter detectBpm currTime s = stopModel s := by
      unfold seedInputAwaiter
      rw [hpending]
      dsimp only
      rw [if_pos habort]
    exact ⟨hshape, rfl, rfl, rfl⟩
  · intro hconfirm
    have hnotabort : ¬ (currTime - s.lastActivity < inputWaitTime) := by
      rw [inputWaitTime] at *
      omega
    have hshape : seedInputAwaiter detectBpm currTime s =
        startModelMark currTime
          { s with
            transportSeconds := s.callModelEnd - beatsToSeconds s.bpm bufferBeats
            noteQueue := s.noteQueue ++ s.noteBuffer
            noteBuffer := [] } := by
      unfold seedInputAwaiter
      rw [hpending]
      dsimp only
      rw [if_neg hnotabort, if_pos hconfirm, foldl_scheduleNote]
    rw [hshape]
    exact ⟨rfl, rfl, rfl, rfl, rfl⟩

/-! ## C3 and C4: rewind -/

lemma rewind_shape (now : ℚ) (s : PianoState)
    (htone : s.toneStarted = true) (hawait : s.awaitingInput = false) :
    rewind now s =
      (let newTransportSeconds :=
        rewindTargetOf s.bpm s.ticksPerBeat now s.currHistory.lastSeedNoteTime
      let callModelEnd :=
        newTransportSeconds + replaySecondsOf s.bpm s.ticksPerBeat
      let committed :=
        commitQueued s.noteQueue callModelEnd s.currHistory.noteHistory
      { stopModel s with
        allHistories :=
          if s.currHistory.isNew then s.allHistories ++ [s.currHistory]
          else s.allHistories
        activeNotes := []
        currHistory := { historyCopy s.currHistory with
          noteHistory := removeHistory committed newTransportSeconds }
        transportSeconds := newTransportSeconds
        callModelEnd := callModelEnd
        noteQueue :=
          (removeHistory (getRecentHistory committed newTransportSeconds)
            callModelEnd).map fun n => { n with isRewind := true } }) := by
  have hcond : (!s.toneStarted || s.awaitingInput) = false := by
    rw [htone, hawait]
    rfl
  rw [rewind, hcond, if_neg Bool.false_ne_true]
  rfl

/-- C3: rewind never sets the new timeline position earlier than
lastSeedNoteTime - replaySeconds.  The position it sets is exactly
roundToOffset(max(now - secondsToRewind, lastSeedNoteTime - replaySeconds)),
which is strictly greater than lastSeedNoteTime - replaySeconds even when
the requested 8-second rewind would reach further back, and callModelEnd
is then that position plus replaySeconds. -/
theorem rewind_clamped (now : ℚ) (s : PianoState)
    (hb : 0 < s.bpm) (ht : 0 < s.ticksPerBeat)
    (htone : s.toneStarted = true) (hawait : s.awaitingInput = false) :
    (rewind now s).transportSeconds =
      roundToOffset s.bpm s.ticksPerBeat
        (max (now - secondsToRewind)
          (s.currHistory.lastSeedNoteTime - replaySecondsOf s.bpm s.ticksPerBeat)) ∧
    s.currHistory.lastSeedNoteTime - replaySecondsOf s.bpm s.ticksPerBeat <
      (rewind now s).transportSeconds ∧
    (rewind now s).callModelEnd =
      (rewind now s).transportSeconds + replaySecondsOf s.bpm s.ticksPerBeat := by
  rw [rewind_shape now s htone hawait]
  refine ⟨rfl, ?_, rfl⟩
  show s.currHistory.lastSeedNoteTime - replaySecondsOf s.bpm s.ticksPerBeat <
    rewindTargetOf s.bpm s.ticksPerBeat now s.currHistory.lastSeedNoteTime
  calc s.currHistory.lastSeedNoteTime - replaySecondsOf s.bpm s.ticksPerBeat
      ≤ max (now - secondsToRewind)
          (s.currHistory.lastSeedNoteTime - replaySecondsOf s.bpm s.ticksPerBeat) :=
        le_max_right _ _
    _ < rewindTargetOf s.bpm s.ticksPerBeat now s.currHistory.lastSeedNoteTime :=
        roundToOffset_gt hb ht _

/-- The callModelEnd set by Piano.rewind: the rewound transport position
plus the replay buffer. -/
def rewindCallModelEnd (bpm ticksPerBeat now lastSeedNoteTime : ℚ) : ℚ :=
  rewindTargetOf bpm ticksPerBeat now lastSeedNoteTime +
    replaySecondsOf bpm ticksPerBeat

lemma SortedByTime.filter (p : Note → Bool) {l : List Note}
    (h : SortedByTime l) : SortedByTime (l.filter p) :=
  List.Pairwise.filter p h

/-- C4: after rewind computes newPosition and callModelEnd, every
previously queued note with time ≤ callModelEnd is committed into the new
current History (the committed set below); the current History is then
truncated to exactly the committed notes with time < newPosition; and the
notes re-scheduled for replay are exactly the committed notes with
newPosition ≤ time < callModelEnd, each at its original time with
isRewind set. -/
theorem rewind_replay_window (now : ℚ) (s : PianoState)
    (hsorted : SortedByTime s.currHistory.noteHistory)
    (htone : s.toneStarted = true) (hawait : s.awaitingInput = false) :
    (∀ n ∈ s.noteQueue,
      n.time ≤ rewindCallModelEnd s.bpm s.ticksPerBeat now
        s.currHistory.lastSeedNoteTime →
      n ∈ commitQueued s.noteQueue
        (rewindCallModelEnd s.bpm s.ticksPerBeat now s.currHistory.lastSeedNoteTime)
        s.currHistory.noteHistory) ∧
    (rewind now s).currHistory.noteHistory =
      (commitQueued s.noteQueue
        (rewindCallModelEnd s.bpm s.ticksPerBeat now s.currHistory.lastSeedNoteTime)
        s.currHistory.noteHistory).filter
        (fun n => decide (n.time <
          rewindTargetOf s.bpm s.ticksPerBeat now s.currHistory.lastSeedNoteTime)) ∧
    (rewind now s).noteQueue =
      ((commitQueued s.noteQueue
        (rewindCallModelEnd s.bpm s.ticksPerBeat now s.currHistory.lastSeedNoteTime)
        s.currHistory.noteHistory).filter
        (fun n =>
          decide (rewindTargetOf s.bpm s.ticksPerBeat now
            s.currHistory.lastSeedNoteTime ≤ n.time) &&
          decide (n.time <
            rewindCallModelEnd s.bpm s.ticksPerBeat now
              s.currHistory.lastSeedNoteTime))).map
        (fun n => { n with isRewind := true }) := by
  have hsc : SortedByTime
      (commitQueued s.noteQueue
        (rewindCallModelEnd s.bpm s.ticksPerBeat now s.currHistory.lastSeedNoteTime)
        s.currHistory.noteHistory) :=
    sorted_commitQueued _ _ hsorted
  have h2 : (rewind now s).currHistory.noteHistory =
      removeHistory
        (commitQueued s.noteQueue
          (rewindCallModelEnd s.bpm s.ticksPerBeat now s.currHistory.lastSeedNoteTime)
          s.currHistory.noteHistory)
        (rewindTargetOf s.bpm s.ticksPerBeat now s.currHistory.lastSeedNoteTime) := by
    rw [rewind_shape now s htone hawait]
    rfl
  have h3 : (rewind now s).noteQueue =
      (removeHistory
        (getRecentHistory
          (commitQueued s.noteQueue
            (rewindCallModelEnd s.bpm s.ticksPerBeat now s.currHistory.lastSeedNoteTime)
            s.currHistory.noteHistory)
          (rewindTargetOf s.bpm s.ticksPerBeat now s.currHistory.lastSeedNoteTime))
        (rewindCallModelEnd s.bpm s.ticksPerBeat now
          s.currHistory.lastSeedNoteTime)).map
        (fun n => { n with isRewind := true }) := by
    rw [rewind_shape now s htone hawait]
    rfl
  refine ⟨?_, ?_, ?_⟩
  · intro n hn hle
    exact mem_commitQueued_of_queued hn hle _
  · rw [h2, removeHistory_eq_filter hsc]
  · rw [h3, getRecentHistory_eq_filter hsc,
      removeHistory_eq_filter (SortedByTime.filter _ hsc), List.filter_filter]
    congr 1
    apply List.filter_congr
    intro x _
    rw [Bool.and_comm]

/-! ## C6: getRecentHistory and removeHistory partition -/

/-- C6: for a note sequence sorted in non-decreasing time order and any
start, getRecentHistory returns exactly the notes with time ≥ start in
the original order (the maximal suffix), removeHistory with the same
cutoff returns exactly the complementary prefix with time < start, the
two concatenate back to the input (so they are disjoint and exhaustive),
and both are pure queries of the input list. -/
theorem history_partition (l : List Note) (start : ℚ)
    (hsorted : SortedByTime l) :
    removeHistory l start ++ getRecentHistory l start = l ∧
    getRecentHistory l start = l.filter (fun n => decide (start ≤ n.time)) ∧
    removeHistory l start = l.filter (fun n => decide (n.time < start)) ∧
    (∀ n ∈ getRecentHistory l start, start ≤ n.time) ∧
    (∀ n ∈ removeHistory l start, n.time < start) := by
  refine ⟨removeHistory_append_getRecentHistory start hsorted,
    getRecentHistory_eq_filter hsorted, removeHistory_eq_filter hsorted, ?_, ?_⟩
  · intro n hn
    rw [getRecentHistory_eq_filter hsorted] at hn
    exact of_decide_eq_true (List.mem_filter.mp hn).2
  · intro n hn
    rw [removeHistory_eq_filter hsorted] at hn
    exact of_decide_eq_true (List.mem_filter.mp hn).2

/-! ## C10: key-numbering round trip -/

lemma calcOctaveKeyNum_add12 (k : ℕ) :
    calcOctaveKeyNum (k + 12) = calcOctaveKeyNum k := by
  unfold calcOctaveKeyNum
  omega

lemma calcOctave_add12 (k : ℕ) : calcOctave (k + 12) = calcOctave k + 1 := by
  unfold calcOctave
  omega

lemma calcIsWhiteKey_add12 (k : ℕ) :
    calcIsWhiteKey (k + 12) = calcIsWhiteKey k := by
  unfold calcIsWhiteKey
  rw [calcOctaveKeyNum_add12]

lemma calcColourKeyNum_add12 (k : ℕ) :
    calcColourKeyNum (k + 12) =
      calcColourKeyNum k + (if calcIsWhiteKey k then 7 else 5) := by
  unfold calcColourKeyNum
  rw [calcOctaveKeyNum_add12, calcOctave_add12, calcIsWhiteKey_add12]
  by_cases hw : calcIsWhiteKey k
  · rw [if_pos hw, if_pos hw, if_pos hw]
    push_cast
    ring
  · rw [if_neg hw, if_neg hw, if_neg hw]
    push_cast
    ring

lemma fromColour_white_add7 (c : ℤ) :
    calcKeyNumFromColourKeyNum (c + 7) true =
      calcKeyNumFromColourKeyNum c true + 12 := by
  unfold calcKeyNumFromColourKeyNum
  rw [if_pos rfl, if_pos rfl]
  dsimp only
  have h7 : (0 : ℤ) ≤ 7 := by norm_num
  rw [Int.fdiv_eq_ediv _ h7, Int.fdiv_eq_ediv _ h7,
    Int.fmod_eq_emod _ h7, Int.fmod_eq_emod _ h7]
  have hd : (c + 7 + 5) / 7 = (c + 5) / 7 + 1 := by omega
  have hm : (c + 7 + 5) % 7 = (c + 5) % 7 := by omega
  rw [hd, hm]
  ring

lemma fromColour_black_add5 (c : ℤ) :
    calcKeyNumFromColourKeyNum (c + 5) false =
      calcKeyNumFromColourKeyNum c false + 12 := by
  unfold calcKeyNumFromColourKeyNum
  rw [if_neg Bool.false_ne_true, if_neg Bool.false_ne_true]
  dsimp only
  have h5 : (0 : ℤ) ≤ 5 := by norm_num
  rw [Int.fdiv_eq_ediv _ h5, Int.fdiv_eq_ediv _ h5,
    Int.fmod_eq_emod _ h5, Int.fmod_eq_emod _ h5]
  have hd : (c + 5 + 4) / 5 = (c + 4) / 5 + 1 := by omega
  have hm : (c + 5 + 4) % 5 = (c + 4) % 5 := by omega
  rw [hd, hm]
  ring

lemma keyNumRoundTrip_add12 (k : ℕ) :
    keyNumRoundTrip (k + 12) = keyNumRoundTrip k + 12 := by
  unfold keyNumRoundTrip
  rw [calcColourKeyNum_add12, calcIsWhiteKey_add12]
  by_cases hw : calcIsWhiteKey k
  · rw [hw, if_pos rfl]
    exact fromColour_white_add7 _
  · have hf : calcIsWhiteKey k = false := by
      revert hw
      cases calcIsWhiteKey k
      · intro _
        rfl
      · intro hw
        exact absurd rfl hw
    rw [hf, if_neg Bool.false_ne_true]
    exact fromColour_black_add5 _

lemma keyNumRoundTrip_base : ∀ r < 12, keyNumRoundTrip r = r := by decide

/-- C10: the key-numbering round trip.  For every absolute key number,
mapping to (colour, colour-relative index) with calcColourKeyNum and
calcIsWhiteKey and back with calcKeyNumFromColourKeyNum is the identity. -/
theorem keyNum_colour_roundTrip (keyNum : ℕ) :
    keyNumRoundTrip keyNum = keyNum := by
  induction keyNum using Nat.strong_induction_on with
  | _ k ih =>
    by_cases h : k < 12
    · exact keyNumRoundTrip_base k h
    · obtain ⟨m, rfl⟩ : ∃ m, k = m + 12 := ⟨k - 12, by omega⟩
      rw [keyNumRoundTrip_add12, ih m (by omega)]
      push_cast
      ring

/-! ## Concrete fixtures for the witnesses -/

/-- A concrete note used to instantiate the theorems. -/
def sampleNote : Note :=
  { keyNum := 5, velocity := 4/5, duration := 2, time := 1, actor := Actor.Player }

/-- A concrete History holding sampleNote. -/
def sampleHistory : History :=
  { noteHistory := [sampleNote], bpm := 60, name := "Player Prompt",
    lastSeedNoteTime := 1, isNew := true }

/-- A concrete engine state used to instantiate the theorems. -/
def sampleState : PianoState :=
  { bpm := 60, ticksPerBeat := 1, lastActivity := 0, modelStartTime := some 0,
    currHistory := sampleHistory, allHistories := [], activeNotes := [sampleNote],
    noteQueue := [], noteBuffer := [], callModelEnd := 10, transportSeconds := 12,
    toneStarted := true, awaitingInput := false, callModelIntervalActive := true,
    audioReleases := [], audioAttacks := [] }

/-- C1 witness: a result initiated at time 0 arriving after a restart at
time 1 is dropped. -/
theorem stale_model_result_dropped_witness :
    (0 : ℤ) < 1 ∧
    callModelComplete 0 [⟨3, 1/2, 1, 2⟩] true (startModelMark 1 sampleState) =
      startModelMark 1 sampleState :=
  ⟨by norm_num,
   (stale_model_result_dropped 0 [⟨3, 1/2, 1, 2⟩] true sampleState).2 1 (by norm_num)⟩

/-- C3 witness: the clamp theorem at now = 20 on the sample state. -/
theorem rewind_clamped_witness :
    (0 : ℚ) < sampleState.bpm ∧ (0 : ℚ) < sampleState.ticksPerBeat ∧
    sampleState.toneStarted = true ∧ sampleState.awaitingInput = false ∧
    ((rewind 20 sampleState).transportSeconds =
      roundToOffset sampleState.bpm sampleState.ticksPerBeat
        (max (20 - secondsToRewind)
          (sampleState.currHistory.lastSeedNoteTime -
            replaySecondsOf sampleState.bpm sampleState.ticksPerBeat)) ∧
     sampleState.currHistory.lastSeedNoteTime -
        replaySecondsOf sampleState.bpm sampleState.ticksPerBeat <
      (rewind 20 sampleState).transportSeconds ∧
     (rewind 20 sampleState).callModelEnd =
      (rewind 20 sampleState).transportSeconds +
        replaySecondsOf sampleState.bpm sampleState.ticksPerBeat) :=
  ⟨by norm_num [sampleState], by norm_num [sampleState], rfl, rfl,
   rewind_clamped 20 sampleState (by norm_num [sampleState])
     (by norm_num [sampleState]) rfl rfl⟩

/-- C4 witness: the commit, truncation and replay-window theorem at
now = 20 on the sample state. -/
theorem rewind_replay_window_witness :
    SortedByTime sampleState.currHistory.noteHistory ∧
    sampleState.toneStarted = true ∧ sampleState.awaitingInput = false ∧
    ((∀ n ∈ sampleState.noteQueue,
      n.time ≤ rewindCallModelEnd sampleState.bpm sampleState.ticksPerBeat 20
        sampleState.currHistory.lastSeedNoteTime →
      n ∈ commitQueued sampleState.noteQueue
        (rewindCallModelEnd sampleState.bpm sampleState.ticksPerBeat 20
          sampleState.currHistory.lastSeedNoteTime)
        sampleState.currHistory.noteHistory) ∧
    (rewind 20 sampleState).currHistory.noteHistory =
      (commitQueued sampleState.noteQueue
        (rewindCallModelEnd sampleState.bpm sampleState.ticksPerBeat 20
          sampleState.currHistory.lastSeedNoteTime)
        sampleState.currHistory.noteHistory).filter
        (fun n => decide (n.time <
          rewindTargetOf sampleState.bpm sampleState.ticksPerBeat 20
            sampleState.currHistory.lastSeedNoteTime)) ∧
    (rewind 20 sampleState).noteQueue =
      ((commitQueued sampleState.noteQueue
        (rewindCallModelEnd sampleState.bpm sampleState.ticksPerBeat 20
          sampleState.currHistory.lastSeedNoteTime)
        sampleState.currHistory.noteHistory).filter
        (fun n =>
          decide (rewindTargetOf sampleState.bpm sampleState.ticksPerBeat 20
            sampleState.currHistory.lastSeedNoteTime ≤ n.time) &&
          decide (n.time <
            rewindCallModelEnd sampleState.bpm sampleState.ticksPerBeat 20
              sampleState.currHistory.lastSeedNoteTime))).map
        (fun n => { n with isRewind := true })) :=
  ⟨List.pairwise_singleton _ _, rfl, rfl,
   rewind_replay_window 20 sampleState (List.pairwise_singleton _ _) rfl rfl⟩

/-- C5 witness: the confirm transition at currTime = 4500 on the sample
state, whose last activity is at 0 and whose model is pending since 0. -/
theorem seedInputAwaiter_pending_transitions_witness :
    sampleState.modelStartTime = some 0 ∧
    inputWaitTime * 3 ≤ 4500 - sampleState.lastActivity ∧
    ((seedInputAwaiter (fun _ => 60) 4500 sampleState).transportSeconds =
      sampleState.callModelEnd - beatsToSeconds sampleState.bpm bufferBeats ∧
     (seedInputAwaiter (fun _ => 60) 4500 sampleState).noteQueue =
      sampleState.noteQueue ++ sampleState.noteBuffer ∧
     (seedInputAwaiter (fun _ => 60) 4500 sampleState).noteBuffer = [] ∧
     (seedInputAwaiter (fun _ => 60) 4500 sampleState).modelStartTime = some 4500 ∧
     (seedInputAwaiter (fun _ => 60) 4500 sampleState).callModelIntervalActive =
       true) :=
  ⟨rfl, by decide,
   (seedInputAwaiter_pending_transitions (fun _ => 60) 4500 0 sampleState rfl).2
     (by decide)⟩

/-- C6 witness: the partition theorem on the singleton sorted history at
start = 0. -/
theorem history_partition_witness :
    SortedByTime [sampleNote] ∧
    (removeHistory [sampleNote] 0 ++ getRecentHistory [sampleNote] 0 = [sampleNote] ∧
     getRecentHistory [sampleNote] 0 =
       [sampleNote].filter (fun n => decide ((0 : ℚ) ≤ n.time)) ∧
     removeHistory [sampleNote] 0 =
       [sampleNote].filter (fun n => decide (n.time < (0 : ℚ))) ∧
     (∀ n ∈ getRecentHistory [sampleNote] 0, (0 : ℚ) ≤ n.time) ∧
     (∀ n ∈ removeHistory [sampleNote] 0, n.time < (0 : ℚ))) :=
  ⟨List.pairwise_singleton _ _,
   history_partition [sampleNote] 0 (List.pairwise_singleton _ _)⟩

/-- C7 witness: releasing key 5 at t = 3 with sampleNote active. -/
theorem releaseNote_epsilon_rule_witness :
    sampleState.activeNotes.find? (fun n => n.keyNum == 5) = some sampleNote ∧
    ((|sampleNote.duration - (3 - sampleNote.time)| ≤ releaseEpsilon →
      releaseNote 5 3 sampleState =
        { sampleState with
          activeNotes := sampleState.activeNotes.eraseP
            (fun n => n == sampleNote) }) ∧
     (releaseEpsilon < |sampleNote.duration - (3 - sampleNote.time)| →
      releaseNote 5 3 sampleState =
        { sampleState with
          activeNotes := sampleState.activeNotes.eraseP (fun n => n == sampleNote)
          audioReleases := sampleState.audioReleases ++ [5]
          currHistory := { sampleState.currHistory with
            noteHistory := updateNoteDuration sampleState.currHistory.noteHistory
              sampleNote (3 - sampleNote.time) } }) ∧
     (sampleNote ∈ sampleState.currHistory.noteHistory →
      releaseEpsilon < |sampleNote.duration - (3 - sampleNote.time)| →
      { sampleNote with duration := 3 - sampleNote.time } ∈
        (releaseNote 5 3 sampleState).currHistory.noteHistory)) :=
  ⟨rfl, releaseNote_epsilon_rule 5 3 sampleState sampleNote rfl⟩

/-- C8 witness: the invariant theorem on the sample state, playing
sampleNote again and releasing key 5 at t = 2. -/
theorem activeNotes_key_invariant_witness :
    KeyUnique sampleState.activeNotes ∧
    (KeyUnique (playNote sampleNote sampleState).activeNotes ∧
     (∀ m ∈ (playNote sampleNote sampleState).activeNotes,
       m.keyNum = sampleNote.keyNum → m = sampleNote) ∧
     KeyUnique (releaseNote 5 2 sampleState).activeNotes ∧
     (∀ m ∈ (releaseNote 5 2 sampleState).activeNotes, m.keyNum ≠ 5) ∧
     (sampleState.activeNotes.find? (fun n => n.keyNum == 5) = none →
       releaseNote 5 2 sampleState = sampleState)) :=
  ⟨List.pairwise_singleton _ _,
   activeNotes_key_invariant sampleNote 5 2 sampleState
     (List.pairwise_singleton _ _)⟩
